import Mathlib

/-!
Verification of the `scripts/add-dynamic-export.py` utility.

The script reads a fixed list of route files and, for each file that uses
`getServerSession` and does not yet contain a dynamic-rendering directive,
splices a constant marker text into the file at the position computed from
the first match of the regular expression

  `(import\s+.*?\n)(\n*)(export\s+(async\s+)?function|export\s+const)`

under `re.DOTALL`: the new file content is
`content[:match.end(1)] + DYNAMIC_EXPORT + content[match.end(1):]`.

File contents are modelled as `List Char` (Python `str` is a sequence of
code points, and the script reads and writes whole files as text).  The
filesystem is modelled as a function from path strings to a `ReadResult`,
where read errors are explicit values: the script catches every exception
at the per-file boundary, so in this embedding errors are data, never
propagation.

The regular-expression search is embedded as a direct implementation of
the backtracking semantics of this one concrete pattern: the scan tries
each start position from the left; at a start, the literal `import` must
match, then `\s+` greedily tries the longest whitespace run first and
backs off, then `.*?` lazily tries the shortest extension first up to a
literal newline, then `\n*` and the export alternatives must match.  Only
`match.end(1)` is used by the script, so the embedding returns exactly
that position.
-/

/-- Whitespace characters matched by the regex class `\s` under the
script's Unicode (default, non-ASCII-flag) pattern semantics: the exact
set of code points CPython's `\s` matches for `str` patterns — `\t` to
`\r` (9 to 13), file/group/record/unit separators and space (28 to 32),
next line (133), no-break space (160), ogham space mark (0x1680), the
en-quad to hair-space block (0x2000 to 0x200A), line and paragraph
separators (0x2028, 0x2029), narrow no-break space (0x202F), medium
mathematical space (0x205F) and ideographic space (0x3000). -/
def pySpace (c : Char) : Bool :=
  (9 ≤ c.val && c.val ≤ 13) || (28 ≤ c.val && c.val ≤ 32) ||
    c.val == 133 || c.val == 160 || c.val == 0x1680 ||
    (0x2000 ≤ c.val && c.val ≤ 0x200A) || c.val == 0x2028 || c.val == 0x2029 ||
    c.val == 0x202F || c.val == 0x205F || c.val == 0x3000

/-- The trigger substring tested by `"getServerSession" not in content`. -/
def TRIGGER : List Char := "getServerSession".data

/-- The substring tested by the already-present guard
`"export const dynamic" in content`.  Note this is only a fragment of the
full inserted text `DYNAMIC_EXPORT`. -/
def MARKER_SUB : List Char := "export const dynamic".data

/-- A single-quote character (code point 39). -/
def squote : Char := Char.ofNat 39

/-- The constant text spliced into a file, from the script:
a newline, a comment line, and the line `export const dynamic = (quote)force-dynamic(quote)`
followed by a newline. -/
def DYNAMIC_EXPORT : List Char :=
  "\n// Force dynamic rendering (required for NextAuth session)\nexport const dynamic = ".data
    ++ [squote] ++ "force-dynamic".data ++ [squote] ++ "\n".data

/-- Python substring membership `needle in hay`: some suffix of `hay`
starts with `needle`. -/
def containsSub (needle : List Char) : List Char → Bool
  | [] => needle.isPrefixOf ([] : List Char)
  | c :: rest => needle.isPrefixOf (c :: rest) || containsSub needle rest

/-- Whether the third regex group `export\s+(async\s+)?function|export\s+const`
matches at the head of `l`.  The whitespace runs are forced to be consumed
entirely because the following literals start with non-whitespace. -/
def exportHead (l : List Char) : Bool :=
  if "export".data.isPrefixOf l then
    match l.drop 6 with
    | [] => false
    | c :: rest =>
      if pySpace c then
        let t := (c :: rest).dropWhile pySpace
        "function".data.isPrefixOf t || "const".data.isPrefixOf t ||
          ("async".data.isPrefixOf t &&
            match t.drop 5 with
            | [] => false
            | d :: rest2 =>
              pySpace d && "function".data.isPrefixOf ((d :: rest2).dropWhile pySpace))
      else false
  else false

/-- Whether `\n*` followed by the export alternatives matches at the head
of `l`.  The `\n*` run is forced to be consumed entirely because `export`
starts with a non-newline character. -/
def tailCond (l : List Char) : Bool :=
  exportHead (l.dropWhile (fun c => c == '\n'))

/-- The lazy `.*?\n` step: the least index `d` such that `l` has a newline
at `d` and the rest of the pattern matches just after it.  Returns the
index of that closing newline. -/
def lazyNl : List Char → Option Nat
  | [] => none
  | c :: rest =>
    if c == '\n' && tailCond rest then some 0
    else (lazyNl rest).map (fun x => x + 1)

/-- The greedy `\s+` step: `l` is the text just after the literal `import`;
the whitespace length is tried from `w` down to `1`, and for the first
length admitting a lazy match the offset of the end of group 1 relative to
`l` is returned (whitespace length plus lazy length plus the closing
newline). -/
def tryWsRun (l : List Char) : Nat → Option Nat
  | 0 => none
  | w + 1 =>
    match lazyNl (l.drop (w + 1)) with
    | some d => some (w + 1 + d + 1)
    | none => tryWsRun l w

/-- The position `match.end(1)` of the leftmost match of the insertion
pattern, or `none` when the pattern does not match: the scan tries every
start position from the left; at a start the literal `import` must match,
followed by the greedy whitespace step. -/
def searchEnd1 : List Char → Option Nat
  | [] => none
  | c :: rest =>
    if "import".data.isPrefixOf (c :: rest) then
      match tryWsRun ((c :: rest).drop 6) (((c :: rest).drop 6).takeWhile pySpace).length with
      | some off => some (6 + off)
      | none => (searchEnd1 rest).map (fun x => x + 1)
    else (searchEnd1 rest).map (fun x => x + 1)

/-- The rewritten file content
`content[:match.end(1)] + DYNAMIC_EXPORT + content[match.end(1):]`. -/
def newContent (content : List Char) (p : Nat) : List Char :=
  content.take p ++ DYNAMIC_EXPORT ++ content.drop p

/-- The per-file outcome printed by the script. -/
inductive Outcome where
  | updated
  | alreadyPresent
  | notApplicable
  | noInsertionPoint
  | fileNotFound
  | otherError
deriving DecidableEq

/-- The result of opening and reading a file: its content, a missing
file (`FileNotFoundError`), or any other I/O error (the generic
`except Exception` arm). -/
inductive ReadResult where
  | ok : List Char → ReadResult
  | notFound
  | ioError
deriving DecidableEq

/-- A filesystem: each path maps to what reading it yields. -/
abbrev Fs := String → ReadResult

/-- The per-file operation `add_dynamic_export(file_path)`: read the file,
skip when the marker substring is already present, skip when the trigger
is absent, search for the insertion pattern, and on a match overwrite the
file with the marker spliced in.  Returns the printed outcome, the boolean
return value, and the filesystem after the call. -/
def add_dynamic_export (fs : Fs) (file_path : String) : Outcome × Bool × Fs :=
  match fs file_path with
  | ReadResult.notFound => (Outcome.fileNotFound, false, fs)
  | ReadResult.ioError => (Outcome.otherError, false, fs)
  | ReadResult.ok content =>
    if containsSub MARKER_SUB content then (Outcome.alreadyPresent, false, fs)
    else if !(containsSub TRIGGER content) then (Outcome.notApplicable, false, fs)
    else
      match searchEnd1 content with
      | some p =>
        (Outcome.updated, true,
          fun q => if q = file_path then ReadResult.ok (newContent content p) else fs q)
      | none => (Outcome.noInsertionPoint, false, fs)

/-- The hard-coded list of route files the script iterates over. -/
def API_ROUTES : List String :=
  [ "app/api/credits/usage/route.ts",
    "app/api/credits/transactions/route.ts",
    "app/api/settings/route.ts",
    "app/api/purchases/route.ts",
    "app/api/projects/route.ts",
    "app/api/projects/[id]/route.ts",
    "app/api/personas/route.ts",
    "app/api/personas/[id]/route.ts",
    "app/api/personas/test-style/route.ts",
    "app/api/personas/enrich-style/route.ts",
    "app/api/contents/[id]/route.ts",
    "app/api/stripe/create-session/route.ts",
    "app/api/stripe/confirm/route.ts",
    "app/api/stripe/manual-complete/route.ts",
    "app/api/generate-advanced/route.ts" ]

/-- The insertion preconditions on what reading a file yields: the file is
readable, the marker substring is absent, the trigger is present, and the
insertion pattern matches. -/
def meetsPre (r : ReadResult) : Bool :=
  match r with
  | ReadResult.ok c =>
    !(containsSub MARKER_SUB c) && containsSub TRIGGER c && (searchEnd1 c).isSome
  | _ => false

/-- The driver loop of `main`: process each route in order, threading the
filesystem and accumulating `updated_count`. -/
def mainLoop (fs : Fs) (updated_count : Nat) : List String → Fs × Nat
  | [] => (fs, updated_count)
  | route :: rest =>
    let r := add_dynamic_export fs route
    mainLoop r.2.2 (updated_count + (if r.2.1 then 1 else 0)) rest

/-- The entry point `main()` of the script (named `mainFn` here because
Lean reserves `main`): run the loop over `API_ROUTES` starting from count
`0`; the returned number is the printed final count. -/
def mainFn (fs : Fs) : Fs × Nat :=
  mainLoop fs 0 API_ROUTES

/-- An occurrence of `needle` at position `q` of `l`. -/
def occAt (needle l : List Char) (q : Nat) : Bool :=
  needle.isPrefixOf (l.drop q)

/-- The number of positions of `l` at which `needle` occurs. -/
def occCount (needle l : List Char) : Nat :=
  ((Finset.range (l.length + 1)).filter (fun q => occAt needle l q = true)).card

set_option maxRecDepth 100000

/-- Unfolding of the per-file operation when the file reads successfully. -/
theorem add_dynamic_export_ok (fs : Fs) (path : String) (c : List Char)
    (hread : fs path = ReadResult.ok c) :
    add_dynamic_export fs path =
      (if containsSub MARKER_SUB c then (Outcome.alreadyPresent, false, fs)
       else if !(containsSub TRIGGER c) then (Outcome.notApplicable, false, fs)
       else
         match searchEnd1 c with
         | some p =>
           (Outcome.updated, true,
             fun q => if q = path then ReadResult.ok (newContent c p) else fs q)
         | none => (Outcome.noInsertionPoint, false, fs)) := by
  unfold add_dynamic_export
  rw [hread]

/-- C3: a file already containing the marker substring is left unchanged,
the per-file operation returns `false`, and the reported status is
already-present. -/
theorem claim_C3_already_present (fs : Fs) (path : String) (c : List Char)
    (hread : fs path = ReadResult.ok c)
    (hmark : containsSub MARKER_SUB c = true) :
    add_dynamic_export fs path = (Outcome.alreadyPresent, false, fs) := by
  rw [add_dynamic_export_ok fs path c hread, hmark]
  simp

theorem claim_C3_witness :
    add_dynamic_export (fun _ => ReadResult.ok MARKER_SUB) "app/api/settings/route.ts" =
      (Outcome.alreadyPresent, false, fun _ => ReadResult.ok MARKER_SUB) :=
  claim_C3_already_present _ _ MARKER_SUB rfl (by decide)

/-- C4: a file lacking the trigger substring (and lacking the marker) is
left unchanged, the operation returns `false`, and the reported status is
not-applicable. -/
theorem claim_C4_not_applicable (fs : Fs) (path : String) (c : List Char)
    (hread : fs path = ReadResult.ok c)
    (hmark : containsSub MARKER_SUB c = false)
    (htrig : containsSub TRIGGER c = false) :
    add_dynamic_export fs path = (Outcome.notApplicable, false, fs) := by
  rw [add_dynamic_export_ok fs path c hread, hmark, htrig]
  simp

theorem claim_C4_witness :
    add_dynamic_export (fun _ => ReadResult.ok "import x\nexport const a = 1\n".data)
        "app/api/settings/route.ts" =
      (Outcome.notApplicable, false,
        fun _ => ReadResult.ok "import x\nexport const a = 1\n".data) :=
  claim_C4_not_applicable _ _ _ rfl (by decide) (by decide)

/-- C6: a file containing the trigger and lacking the marker, in which the
insertion pattern finds no match, is left unchanged, the operation returns
`false`, and the reported status is no-insertion-point. -/
theorem claim_C6_no_insertion_point (fs : Fs) (path : String) (c : List Char)
    (hread : fs path = ReadResult.ok c)
    (hmark : containsSub MARKER_SUB c = false)
    (htrig : containsSub TRIGGER c = true)
    (hfind : searchEnd1 c = none) :
    add_dynamic_export fs path = (Outcome.noInsertionPoint, false, fs) := by
  rw [add_dynamic_export_ok fs path c hread, hmark, htrig, hfind]
  simp

theorem claim_C6_witness :
    add_dynamic_export (fun _ => ReadResult.ok TRIGGER) "app/api/settings/route.ts" =
      (Outcome.noInsertionPoint, false, fun _ => ReadResult.ok TRIGGER) :=
  claim_C6_no_insertion_point _ _ TRIGGER rfl (by decide) (by decide) (by decide)

/-- C7: the marker-presence guard is tested before the trigger guard: a
file containing the marker substring reports already-present even when the
trigger substring is also present, so the not-applicable branch is never
reached for such a file. -/
theorem claim_C7_guard_order (fs : Fs) (path : String) (c : List Char)
    (hread : fs path = ReadResult.ok c)
    (hmark : containsSub MARKER_SUB c = true)
    (htrig : containsSub TRIGGER c = true) :
    (add_dynamic_export fs path).1 = Outcome.alreadyPresent ∧
      (add_dynamic_export fs path).1 ≠ Outcome.notApplicable := by
  rw [add_dynamic_export_ok fs path c hread, hmark]
  simp

theorem claim_C7_witness :
    (add_dynamic_export (fun _ => ReadResult.ok (MARKER_SUB ++ '\n' :: TRIGGER))
        "app/api/settings/route.ts").1 = Outcome.alreadyPresent ∧
      (add_dynamic_export (fun _ => ReadResult.ok (MARKER_SUB ++ '\n' :: TRIGGER))
        "app/api/settings/route.ts").1 ≠ Outcome.notApplicable :=
  claim_C7_guard_order _ _ _ rfl (by decide) (by decide)

/-- C9: the already-present guard tests only the substring
`export const dynamic`, not the full inserted text: a file containing that
substring anywhere — even without the full marker text — reports
already-present and is left unmodified. -/
theorem claim_C9_fragment_guard (fs : Fs) (path : String) (c : List Char)
    (hread : fs path = ReadResult.ok c)
    (hmark : containsSub MARKER_SUB c = true)
    (hfull : containsSub DYNAMIC_EXPORT c = false) :
    add_dynamic_export fs path = (Outcome.alreadyPresent, false, fs) := by
  rw [add_dynamic_export_ok fs path c hread, hmark]
  simp

theorem claim_C9_witness :
    add_dynamic_export (fun _ => ReadResult.ok "export const dynamic = 0\n".data)
        "app/api/settings/route.ts" =
      (Outcome.alreadyPresent, false, fun _ => ReadResult.ok "export const dynamic = 0\n".data) :=
  claim_C9_fragment_guard _ _ _ rfl (by decide) (by decide)

/-- The boolean returned by the per-file operation is exactly the
insertion-precondition predicate on what the file reads as. -/
theorem add_snd_fst (fs : Fs) (path : String) :
    (add_dynamic_export fs path).2.1 = meetsPre (fs path) := by
  cases h : fs path with
  | ok c =>
    rw [add_dynamic_export_ok fs path c h]
    unfold meetsPre
    by_cases hm : containsSub MARKER_SUB c
    · simp [hm]
    · by_cases ht : containsSub TRIGGER c
      · cases hs : searchEnd1 c <;>
          simp [hm, ht, hs]
      · simp [hm, ht]
  | notFound => unfold add_dynamic_export meetsPre; rw [h]
  | ioError => unfold add_dynamic_export meetsPre; rw [h]

/-- The per-file operation never changes the filesystem at any other
path. -/
theorem add_fs_ne (fs : Fs) (path q : String) (hq : q ≠ path) :
    (add_dynamic_export fs path).2.2 q = fs q := by
  cases h : fs path with
  | ok c =>
    rw [add_dynamic_export_ok fs path c h]
    by_cases hm : containsSub MARKER_SUB c
    · simp [hm]
    · by_cases ht : containsSub TRIGGER c
      · cases hs : searchEnd1 c <;> simp [hm, ht, hs, hq]
      · simp [hm, ht]
  | notFound => unfold add_dynamic_export; rw [h]
  | ioError => unfold add_dynamic_export; rw [h]

/-- When the insertion preconditions fail, the per-file operation leaves
the filesystem untouched. -/
theorem add_fs_not (fs : Fs) (path : String) (h : meetsPre (fs path) = false) :
    (add_dynamic_export fs path).2.2 = fs := by
  cases hr : fs path with
  | ok c =>
    rw [add_dynamic_export_ok fs path c hr]
    rw [hr] at h
    unfold meetsPre at h
    by_cases hm : containsSub MARKER_SUB c
    · simp [hm]
    · by_cases ht : containsSub TRIGGER c
      · cases hs : searchEnd1 c with
        | some p => simp [hm, ht, hs] at h
        | none => simp [hm, ht, hs]
      · simp [hm, ht]
  | notFound => unfold add_dynamic_export; rw [hr]
  | ioError => unfold add_dynamic_export; rw [hr]

/-- When the insertion preconditions hold, the per-file operation
overwrites exactly the processed path with the spliced content. -/
theorem add_fs_yes (fs : Fs) (path : String) (c : List Char) (p : Nat)
    (hread : fs path = ReadResult.ok c)
    (hmark : containsSub MARKER_SUB c = false)
    (htrig : containsSub TRIGGER c = true)
    (hfind : searchEnd1 c = some p) :
    (add_dynamic_export fs path).2.2 =
      fun q => if q = path then ReadResult.ok (newContent c p) else fs q := by
  rw [add_dynamic_export_ok fs path c hread, hmark, htrig, hfind]
  simp

/-- The insertion preconditions, unfolded. -/
theorem meetsPre_iff (r : ReadResult) :
    meetsPre r = true ↔
      ∃ c p, r = ReadResult.ok c ∧ containsSub MARKER_SUB c = false ∧
        containsSub TRIGGER c = true ∧ searchEnd1 c = some p := by
  cases r with
  | ok c =>
    unfold meetsPre
    constructor
    · intro h
      simp only [Bool.and_eq_true, Bool.not_eq_true'] at h
      obtain ⟨⟨hm, ht⟩, hs⟩ := h
      obtain ⟨p, hp⟩ := Option.isSome_iff_exists.mp hs
      exact ⟨c, p, rfl, hm, ht, hp⟩
    · rintro ⟨c', p, hc, hm, ht, hs⟩
      cases hc
      simp [hm, ht, hs]
  | notFound => simp [meetsPre]
  | ioError => simp [meetsPre]

/-- What the per-file operation leaves at the processed path depends only
on what that path reads as. -/
theorem add_fs_self_congr (fs1 fs2 : Fs) (path : String) (h : fs1 path = fs2 path) :
    (add_dynamic_export fs1 path).2.2 path = (add_dynamic_export fs2 path).2.2 path := by
  cases hr : fs2 path with
  | ok c =>
    rw [add_dynamic_export_ok fs1 path c (h.trans hr), add_dynamic_export_ok fs2 path c hr]
    by_cases hm : containsSub MARKER_SUB c
    · simp [hm, h.trans hr, hr]
    · by_cases ht : containsSub TRIGGER c
      · cases hs : searchEnd1 c <;> simp [hm, ht, hs, h.trans hr, hr]
      · simp [hm, ht, h.trans hr, hr]
  | notFound => unfold add_dynamic_export; rw [h.trans hr, hr]; exact h
  | ioError => unfold add_dynamic_export; rw [h.trans hr, hr]; exact h

/-- Paths not in the processed list are never touched by the loop. -/
theorem mainLoop_not_mem (l : List String) :
    ∀ (fs : Fs) (cnt : Nat) (q : String), q ∉ l → (mainLoop fs cnt l).1 q = fs q := by
  induction l with
  | nil => intro fs cnt q _; rfl
  | cons r rest ih =>
    intro fs cnt q hq
    have hqr : q ≠ r := fun h => hq (h ▸ List.mem_cons_self r rest)
    have hqrest : q ∉ rest := fun h => hq (List.mem_cons_of_mem r h)
    unfold mainLoop
    rw [ih _ _ q hqrest]
    exact add_fs_ne fs r q hqr

/-- The loop count is the starting count plus the number of processed
paths whose original read satisfies the insertion preconditions, provided
the path list has no duplicates. -/
theorem mainLoop_count (l : List String) :
    ∀ (fs : Fs) (cnt : Nat), l.Nodup →
      (mainLoop fs cnt l).2 = cnt + l.countP (fun r => meetsPre (fs r)) := by
  induction l with
  | nil => intro fs cnt _; simp [mainLoop]
  | cons r rest ih =>
    intro fs cnt hnd
    rw [List.nodup_cons] at hnd
    unfold mainLoop
    rw [ih _ _ hnd.2]
    have hcongr : rest.countP (fun x => meetsPre ((add_dynamic_export fs r).2.2 x)) =
        rest.countP (fun x => meetsPre (fs x)) := by
      apply List.countP_congr
      intro x hx
      rw [add_fs_ne fs r x (fun h => hnd.1 (h ▸ hx))]
    rw [hcongr, add_snd_fst fs r, List.countP_cons]
    by_cases h : meetsPre (fs r) <;> simp [h] <;> omega

/-- What the loop leaves at a processed path is what the per-file
operation on that path (against the original filesystem) leaves there,
provided the path list has no duplicates. -/
theorem mainLoop_mem (l : List String) :
    ∀ (fs : Fs) (cnt : Nat) (p : String), l.Nodup → p ∈ l →
      (mainLoop fs cnt l).1 p = (add_dynamic_export fs p).2.2 p := by
  induction l with
  | nil => intro fs cnt p _ hp; cases hp
  | cons r rest ih =>
    intro fs cnt p hnd hp
    rw [List.nodup_cons] at hnd
    unfold mainLoop
    rcases List.mem_cons.mp hp with hpr | hprest
    · subst hpr
      rw [mainLoop_not_mem rest _ _ p hnd.1]
    · rw [ih _ _ p hnd.2 hprest]
      exact add_fs_self_congr _ fs p (add_fs_ne fs r p (fun h => hnd.1 (h ▸ hprest)))

/-- The route list has no duplicate paths. -/
theorem api_routes_nodup : API_ROUTES.Nodup := by decide

/-- The spliced content is strictly longer than the original, so a
rewritten file never reads back as its old content. -/
theorem newContent_ne (c : List Char) (p : Nat) : newContent c p ≠ c := by
  intro h
  have hlen : (newContent c p).length = c.length + DYNAMIC_EXPORT.length := by
    unfold newContent
    rw [List.length_append, List.length_append, List.length_take, List.length_drop]
    have : DYNAMIC_EXPORT.length = 99 := by decide
    omega
  rw [h] at hlen
  have : DYNAMIC_EXPORT.length = 99 := by decide
  omega

/-- C2: for every starting filesystem, the final printed count equals the
number of listed routes whose (original) content satisfies the insertion
preconditions, and a file is mutated on disk exactly when it is a listed
route satisfying those preconditions — so with `M` qualifying files,
exactly `M` files are rewritten and the count is `M`. -/
theorem claim_C2_batch_count (fs : Fs) :
    (mainFn fs).2 = API_ROUTES.countP (fun r => meetsPre (fs r)) ∧
      ∀ p, ((mainFn fs).1 p ≠ fs p ↔ p ∈ API_ROUTES ∧ meetsPre (fs p) = true) := by
  constructor
  · unfold mainFn
    rw [mainLoop_count API_ROUTES fs 0 api_routes_nodup]
    exact Nat.zero_add _
  · intro p
    constructor
    · intro hne
      by_cases hp : p ∈ API_ROUTES
      · refine ⟨hp, ?_⟩
        by_contra hmeet
        have hmeet' : meetsPre (fs p) = false := by
          cases h : meetsPre (fs p)
          · rfl
          · exact absurd h hmeet
        have := mainLoop_mem API_ROUTES fs 0 p api_routes_nodup hp
        rw [add_fs_not fs p hmeet'] at this
        exact hne this
      · exact absurd (mainLoop_not_mem API_ROUTES fs 0 p hp) hne
    · rintro ⟨hp, hmeet⟩
      obtain ⟨c, q, hc, hm, ht, hs⟩ := (meetsPre_iff (fs p)).mp hmeet
      have := mainLoop_mem API_ROUTES fs 0 p api_routes_nodup hp
      rw [add_fs_yes fs p c q hc hm ht hs] at this
      simp only [if_pos rfl] at this
      unfold mainFn
      rw [this, hc]
      intro hbad
      exact newContent_ne c q (ReadResult.ok.inj hbad)

theorem claim_C2_witness :
    (mainFn (fun _ => ReadResult.notFound)).2 = 0 :=
  (claim_C2_batch_count (fun _ => ReadResult.notFound)).1.trans (by decide)

/-- C5: errors raised while processing a file are absorbed at the per-file
boundary — a missing file yields the not-found outcome and `false`, any
other read error yields the error outcome and `false`, neither changes the
filesystem — and the run always continues over the whole list, so the
final count still equals the number of qualifying routes no matter what
errors the other files produce. -/
theorem claim_C5_errors_absorbed :
    (∀ (fs : Fs) (path : String), fs path = ReadResult.notFound →
        add_dynamic_export fs path = (Outcome.fileNotFound, false, fs)) ∧
      (∀ (fs : Fs) (path : String), fs path = ReadResult.ioError →
        add_dynamic_export fs path = (Outcome.otherError, false, fs)) ∧
      ∀ fs : Fs, (mainFn fs).2 = API_ROUTES.countP (fun r => meetsPre (fs r)) := by
  refine ⟨?_, ?_, ?_⟩
  · intro fs path h
    unfold add_dynamic_export
    rw [h]
  · intro fs path h
    unfold add_dynamic_export
    rw [h]
  · intro fs
    unfold mainFn
    rw [mainLoop_count API_ROUTES fs 0 api_routes_nodup]
    exact Nat.zero_add _

theorem claim_C5_witness :
    add_dynamic_export (fun _ => ReadResult.notFound) "app/api/settings/route.ts" =
      (Outcome.fileNotFound, false, fun _ => ReadResult.notFound) :=
  claim_C5_errors_absorbed.1 (fun _ => ReadResult.notFound) "app/api/settings/route.ts" rfl

/-- C8: the route list has exactly fifteen paths, and a run never changes
the filesystem at any path outside that list. -/
theorem claim_C8_frame :
    API_ROUTES.length = 15 ∧
      ∀ (fs : Fs) (p : String), p ∉ API_ROUTES → (mainFn fs).1 p = fs p := by
  refine ⟨by decide, ?_⟩
  intro fs p hp
  exact mainLoop_not_mem API_ROUTES fs 0 p hp

theorem claim_C8_witness :
    (mainFn (fun _ => ReadResult.notFound)).1 "app/other.ts" =
      (fun _ => ReadResult.notFound : Fs) "app/other.ts" :=
  claim_C8_frame.2 (fun _ => ReadResult.notFound) "app/other.ts" (by decide)

/-- Substring membership is the existence of an occurrence position. -/
theorem containsSub_iff (n l : List Char) :
    containsSub n l = true ↔ ∃ q, n.isPrefixOf (l.drop q) = true := by
  induction l with
  | nil =>
    unfold containsSub
    constructor
    · intro h; exact ⟨0, h⟩
    · rintro ⟨q, h⟩
      rwa [List.drop_nil] at h
  | cons c rest ih =>
    unfold containsSub
    rw [Bool.or_eq_true]
    constructor
    · rintro (h | h)
      · exact ⟨0, h⟩
      · obtain ⟨q, hq⟩ := ih.mp h
        exact ⟨q + 1, hq⟩
    · rintro ⟨q, hq⟩
      cases q with
      | zero => exact Or.inl hq
      | succ q => exact Or.inr (ih.mpr ⟨q, hq⟩)

/-- A negative substring test rules out every occurrence position. -/
theorem containsSub_false (n l : List Char) (h : containsSub n l = false) :
    ∀ q, ¬ (n.isPrefixOf (l.drop q) = true) := by
  intro q hq
  have := (containsSub_iff n l).mpr ⟨q, hq⟩
  rw [h] at this
  cases this

/-- The head segment of the marker text, up to the guarded substring. -/
def UHEAD : List Char :=
  "\n// Force dynamic rendering (required for NextAuth session)\n".data

/-- The tail segment of the marker text, after the guarded substring. -/
def VTAIL : List Char :=
  " = ".data ++ [squote] ++ "force-dynamic".data ++ [squote] ++ "\n".data

/-- The marker text decomposes around the guarded substring. -/
theorem marker_decomp : DYNAMIC_EXPORT = UHEAD ++ MARKER_SUB ++ VTAIL := by decide

/-- The spliced content always contains the guarded substring, wherever
the splice happened. -/
theorem containsSub_newContent (c : List Char) (p : Nat) :
    containsSub MARKER_SUB (newContent c p) = true := by
  apply (containsSub_iff MARKER_SUB (newContent c p)).mpr
  refine ⟨(c.take p ++ UHEAD).length, ?_⟩
  have hsplit : newContent c p = (c.take p ++ UHEAD) ++ (MARKER_SUB ++ (VTAIL ++ c.drop p)) := by
    unfold newContent
    rw [marker_decomp]
    simp [List.append_assoc]
  rw [hsplit, List.drop_left]
  rw [List.isPrefixOf_iff_prefix]
  exact List.prefix_append MARKER_SUB (VTAIL ++ c.drop p)

/-- C10: the per-file operation is idempotent.  The inserted text contains
the guarded substring, so a file produced by a successful insertion always
fails the already-present guard on a second pass; consequently running the
whole script a second time modifies no file and prints a count of zero. -/
theorem claim_C10_idempotent :
    containsSub MARKER_SUB DYNAMIC_EXPORT = true ∧
      (∀ (fs : Fs) (path : String) (c : List Char) (p : Nat),
        fs path = ReadResult.ok (newContent c p) →
        add_dynamic_export fs path = (Outcome.alreadyPresent, false, fs)) ∧
      ∀ fs : Fs, mainFn ((mainFn fs).1) = ((mainFn fs).1, 0) := by
  refine ⟨by decide, ?_, ?_⟩
  · intro fs path c p hread
    rw [add_dynamic_export_ok fs path (newContent c p) hread, containsSub_newContent c p]
    simp
  · intro fs
    have hmeets : ∀ p ∈ API_ROUTES, meetsPre ((mainFn fs).1 p) = false := by
      intro p hp
      have hmem := mainLoop_mem API_ROUTES fs 0 p api_routes_nodup hp
      cases hmp : meetsPre (fs p) with
      | true =>
        obtain ⟨c, q, hc, hm, ht, hs⟩ := (meetsPre_iff (fs p)).mp hmp
        rw [add_fs_yes fs p c q hc hm ht hs] at hmem
        simp at hmem
        show meetsPre ((mainLoop fs 0 API_ROUTES).1 p) = false
        rw [hmem]
        simp [meetsPre, containsSub_newContent]
      | false =>
        rw [add_fs_not fs p hmp] at hmem
        show meetsPre ((mainLoop fs 0 API_ROUTES).1 p) = false
        rw [hmem, hmp]
    have hcnt : (mainFn ((mainFn fs).1)).2 = 0 := by
      show (mainLoop ((mainFn fs).1) 0 API_ROUTES).2 = 0
      rw [mainLoop_count API_ROUTES ((mainFn fs).1) 0 api_routes_nodup, Nat.zero_add]
      apply List.countP_eq_zero.mpr
      intro a ha
      rw [hmeets a ha]
      simp
    have hfs : (mainFn ((mainFn fs).1)).1 = (mainFn fs).1 := by
      funext q
      by_cases hq : q ∈ API_ROUTES
      · show (mainLoop ((mainFn fs).1) 0 API_ROUTES).1 q = (mainFn fs).1 q
        rw [mainLoop_mem API_ROUTES ((mainFn fs).1) 0 q api_routes_nodup hq,
          add_fs_not ((mainFn fs).1) q (hmeets q hq)]
      · exact mainLoop_not_mem API_ROUTES ((mainFn fs).1) 0 q hq
    exact Prod.ext hfs hcnt

theorem claim_C10_witness :
    add_dynamic_export (fun _ => ReadResult.ok (newContent "import x\n".data 0))
        "app/api/settings/route.ts" =
      (Outcome.alreadyPresent, false, fun _ => ReadResult.ok (newContent "import x\n".data 0)) :=
  claim_C10_idempotent.2.1 (fun _ => ReadResult.ok (newContent "import x\n".data 0))
    "app/api/settings/route.ts" "import x\n".data 0 rfl

/-- A prefix of an append that fits inside the left part is a prefix of
the left part. -/
theorem prefix_of_prefix_append (x y z : List Char) (h : x <+: y ++ z)
    (hl : x.length ≤ y.length) : x <+: y := by
  rw [List.prefix_iff_eq_take, List.take_append_of_le_length hl] at h
  rw [h]
  exact List.take_prefix _ _

/-- When a prefix of an append extends past the left part, the left part
is a prefix of it. -/
theorem middle_prefix (x y z : List Char) (h : x <+: y ++ z)
    (hl : y.length ≤ x.length) : y <+: x := by
  rw [List.prefix_iff_eq_take, List.take_append_eq_append_take, List.take_of_length_le hl] at h
  exact ⟨_, h.symm⟩

/-- Positions inside a prefix read the same in the longer list. -/
theorem prefix_getElem (x y : List Char) (h : x <+: y) (j : Nat) (hj : j < x.length) :
    y[j]? = x[j]? := by
  obtain ⟨t, rfl⟩ := h
  exact List.getElem?_append_left hj

/-- The guarded substring occurs inside the marker text only at the end
of its head segment. -/
theorem markerSub_unique_in_marker :
    ∀ j, j < 80 → MARKER_SUB.isPrefixOf (DYNAMIC_EXPORT.drop j) = true → j = 60 := by decide

/-- No nonempty tail of the marker text shorter than the guarded
substring is a prefix of it, so an occurrence of the substring cannot
straddle the right edge of a spliced marker. -/
theorem markerSub_no_straddle :
    ∀ j, j < 99 → 79 < j → (DYNAMIC_EXPORT.drop j).isPrefixOf MARKER_SUB = false := by decide

/-- The guarded substring contains no newline, so an occurrence cannot
straddle the left edge of a spliced marker (which starts with a
newline). -/
theorem newline_not_in_markerSub : ¬ ('\n' ∈ MARKER_SUB) := by decide

/-- In content spliced at an arbitrary position, the guarded substring
occurs only inside the inserted marker, provided the original content
contained no occurrence. -/
theorem sub_occ_unique (A B : List Char)
    (hAB : containsSub MARKER_SUB (A ++ B) = false) (r : Nat)
    (hr : MARKER_SUB.isPrefixOf ((A ++ DYNAMIC_EXPORT ++ B).drop r) = true) :
    r = A.length + UHEAD.length := by
  have hno := containsSub_false MARKER_SUB (A ++ B) hAB
  rw [List.isPrefixOf_iff_prefix] at hr
  have hlenS : MARKER_SUB.length = 20 := by decide
  have hlenM : DYNAMIC_EXPORT.length = 99 := by decide
  have hlenU : UHEAD.length = 60 := by decide
  rw [List.append_assoc] at hr
  by_cases h1 : r + 20 ≤ A.length
  · exfalso
    rw [List.drop_append_of_le_length (by omega : r ≤ A.length)] at hr
    have hsub : MARKER_SUB <+: A.drop r :=
      prefix_of_prefix_append _ _ _ hr (by rw [hlenS, List.length_drop]; omega)
    apply hno r
    rw [List.isPrefixOf_iff_prefix, List.drop_append_of_le_length (by omega : r ≤ A.length)]
    exact hsub.trans (List.prefix_append _ _)
  · by_cases h2 : r < A.length
    · exfalso
      have hj : A.length - r < MARKER_SUB.length := by omega
      have hgs := prefix_getElem _ _ hr (A.length - r) hj
      rw [List.getElem?_drop, show r + (A.length - r) = A.length from by omega] at hgs
      have hA : (A ++ (DYNAMIC_EXPORT ++ B))[A.length]? = some '\n' := by
        rw [List.getElem?_append_right (Nat.le_refl A.length), Nat.sub_self]
        rw [List.getElem?_append_left (by omega : 0 < DYNAMIC_EXPORT.length)]
        decide
      rw [hA] at hgs
      exact newline_not_in_markerSub (List.getElem?_mem hgs.symm)
    · have hdrop1 : (A ++ (DYNAMIC_EXPORT ++ B)).drop r =
          (DYNAMIC_EXPORT ++ B).drop (r - A.length) := by
        rw [show r = A.length + (r - A.length) from by omega]
        rw [List.drop_append]
        rw [Nat.add_sub_cancel_left]
      rw [hdrop1] at hr
      by_cases h3 : r - A.length + 20 ≤ 99
      · rw [List.drop_append_of_le_length (by omega : r - A.length ≤ DYNAMIC_EXPORT.length)] at hr
        have hsub : MARKER_SUB <+: DYNAMIC_EXPORT.drop (r - A.length) :=
          prefix_of_prefix_append _ _ _ hr (by rw [hlenS, List.length_drop, hlenM]; omega)
        have := markerSub_unique_in_marker (r - A.length) (by omega)
          ((List.isPrefixOf_iff_prefix).mpr hsub)
        omega
      · by_cases h4 : r - A.length < 99
        · exfalso
          rw [List.drop_append_of_le_length (by omega : r - A.length ≤ DYNAMIC_EXPORT.length)] at hr
          have hsub : DYNAMIC_EXPORT.drop (r - A.length) <+: MARKER_SUB :=
            middle_prefix _ _ _ hr (by rw [hlenS, List.length_drop, hlenM]; omega)
          have hfalse := markerSub_no_straddle (r - A.length) (by omega) (by omega)
          rw [(List.isPrefixOf_iff_prefix).mpr hsub] at hfalse
          cases hfalse
        · exfalso
          have hdrop2 : (DYNAMIC_EXPORT ++ B).drop (r - A.length) =
              B.drop (r - A.length - 99) := by
            rw [show r - A.length = DYNAMIC_EXPORT.length + (r - A.length - 99) from by omega]
            rw [List.drop_append]
            rw [hlenM]
            congr 1
            omega
          rw [hdrop2] at hr
          apply hno (A.length + (r - A.length - 99))
          rw [List.isPrefixOf_iff_prefix, List.drop_append]
          exact hr

/-- In content spliced at an arbitrary position, the whole marker text
occurs only at the splice position, provided the original content
contained no occurrence of the guarded substring. -/
theorem marker_occ_unique (A B : List Char)
    (hAB : containsSub MARKER_SUB (A ++ B) = false) (q : Nat)
    (hq : occAt DYNAMIC_EXPORT (A ++ DYNAMIC_EXPORT ++ B) q = true) : q = A.length := by
  unfold occAt at hq
  rw [List.isPrefixOf_iff_prefix] at hq
  obtain ⟨t, ht⟩ := hq
  have hsub : MARKER_SUB.isPrefixOf ((A ++ DYNAMIC_EXPORT ++ B).drop (q + 60)) = true := by
    rw [List.isPrefixOf_iff_prefix]
    have hdd : (A ++ DYNAMIC_EXPORT ++ B).drop (q + 60) =
        ((A ++ DYNAMIC_EXPORT ++ B).drop q).drop 60 := (List.drop_drop 60 q _).symm
    rw [hdd, ← ht]
    have hsplit : (DYNAMIC_EXPORT ++ t).drop 60 = MARKER_SUB ++ (VTAIL ++ t) := by
      rw [marker_decomp, List.append_assoc, List.append_assoc]
      rw [show (60 : Nat) = UHEAD.length from by decide]
      rw [List.drop_left]
    rw [hsplit]
    exact List.prefix_append _ _
  have h60 := sub_occ_unique A B hAB (q + 60) hsub
  have hlenU : UHEAD.length = 60 := by decide
  omega

/-- Splicing the marker into content with no occurrence of the guarded
substring yields content with exactly one occurrence of the marker. -/
theorem occCount_insert (A B : List Char)
    (hAB : containsSub MARKER_SUB (A ++ B) = false) :
    occCount DYNAMIC_EXPORT (A ++ DYNAMIC_EXPORT ++ B) = 1 := by
  unfold occCount
  have hfilter : (Finset.range ((A ++ DYNAMIC_EXPORT ++ B).length + 1)).filter
      (fun q => occAt DYNAMIC_EXPORT (A ++ DYNAMIC_EXPORT ++ B) q = true) = {A.length} := by
    apply Finset.eq_singleton_iff_unique_mem.mpr
    constructor
    · rw [Finset.mem_filter]
      refine ⟨Finset.mem_range.mpr ?_, ?_⟩
      · rw [List.length_append, List.length_append]
        omega
      · unfold occAt
        have hd : (A ++ DYNAMIC_EXPORT ++ B).drop A.length = DYNAMIC_EXPORT ++ B := by
          rw [List.append_assoc]
          exact List.drop_left A (DYNAMIC_EXPORT ++ B)
        rw [hd, List.isPrefixOf_iff_prefix]
        exact List.prefix_append _ _
    · intro x hx
      exact marker_occ_unique A B hAB x (Finset.mem_filter.mp hx).2
  rw [hfilter]
  exact Finset.card_singleton _

/-- The lazy step returns the index of a newline after which the rest of
the pattern matches. -/
theorem lazyNl_sound :
    ∀ (l : List Char) (d : Nat), lazyNl l = some d →
      l[d]? = some '\n' ∧ tailCond (l.drop (d + 1)) = true := by
  intro l
  induction l with
  | nil => intro d h; simp [lazyNl] at h
  | cons a rest ih =>
    intro d h
    unfold lazyNl at h
    by_cases hc : (a == '\n' && tailCond rest) = true
    · rw [if_pos hc] at h
      cases h
      rw [Bool.and_eq_true] at hc
      refine ⟨?_, hc.2⟩
      rw [show a = '\n' from by exact_mod_cast eq_of_beq hc.1]
      simp
    · rw [if_neg hc] at h
      obtain ⟨d', hd', rfl⟩ := Option.map_eq_some'.mp h
      obtain ⟨hget, htail⟩ := ih d' hd'
      refine ⟨?_, htail⟩
      rw [List.getElem?_cons_succ]
      exact hget

/-- The greedy whitespace step returns an offset decomposed as whitespace
length plus lazy index plus one, with a successful lazy step after the
whitespace. -/
theorem tryWsRun_sound :
    ∀ (w : Nat) (l : List Char) (off : Nat), tryWsRun l w = some off →
      ∃ w' d, 1 ≤ w' ∧ w' ≤ w ∧ off = w' + d + 1 ∧ lazyNl (l.drop w') = some d := by
  intro w
  induction w with
  | zero => intro l off h; simp [tryWsRun] at h
  | succ w ih =>
    intro l off h
    unfold tryWsRun at h
    cases hm : lazyNl (l.drop (w + 1)) with
    | some d =>
      rw [hm] at h
      cases h
      exact ⟨w + 1, d, by omega, Nat.le_refl _, rfl, hm⟩
    | none =>
      rw [hm] at h
      obtain ⟨w', d, h1, h2, h3, h4⟩ := ih l off h
      exact ⟨w', d, h1, by omega, h3, h4⟩

/-- Soundness of the insertion-point search: the returned position is
positive, sits immediately after a newline of the content, and the text
from that position on consists of optional blank lines followed by an
export declaration head. -/
theorem searchEnd1_sound :
    ∀ (l : List Char) (p : Nat), searchEnd1 l = some p →
      1 ≤ p ∧ l[p - 1]? = some '\n' ∧ tailCond (l.drop p) = true := by
  intro l
  induction l with
  | nil => intro p h; simp [searchEnd1] at h
  | cons ch rest ih =>
    intro p h
    unfold searchEnd1 at h
    by_cases himp : ("import".data.isPrefixOf (ch :: rest)) = true
    · rw [if_pos himp] at h
      cases htw : tryWsRun ((ch :: rest).drop 6) (((ch :: rest).drop 6).takeWhile pySpace).length with
      | some off =>
        rw [htw] at h
        cases h
        obtain ⟨w', d, hw1, hw2, hoff, hlz⟩ := tryWsRun_sound _ _ _ htw
        subst hoff
        obtain ⟨hget, htail⟩ := lazyNl_sound _ _ hlz
        rw [List.drop_drop, List.getElem?_drop] at hget
        rw [List.drop_drop, List.drop_drop] at htail
        refine ⟨by omega, ?_, ?_⟩
        · rw [show 6 + (w' + d + 1) - 1 = 6 + w' + d from by omega]
          exact hget
        · rw [show 6 + (w' + d + 1) = 6 + (w' + (d + 1)) from by omega]
          exact htail
      | none =>
        rw [htw] at h
        obtain ⟨p', hp', rfl⟩ := Option.map_eq_some'.mp h
        obtain ⟨h1, hget, htail⟩ := ih p' hp'
        refine ⟨by omega, ?_, htail⟩
        rw [show p' + 1 - 1 = (p' - 1) + 1 from by omega, List.getElem?_cons_succ]
        exact hget
    · rw [if_neg himp] at h
      obtain ⟨p', hp', rfl⟩ := Option.map_eq_some'.mp h
      obtain ⟨h1, hget, htail⟩ := ih p' hp'
      refine ⟨by omega, ?_, htail⟩
      rw [show p' + 1 - 1 = (p' - 1) + 1 from by omega, List.getElem?_cons_succ]
      exact hget

/-- C1 (amended): for a file containing the trigger, lacking the marker
substring, and matched by the insertion pattern, processing rewrites the
file to the original with the marker text spliced in at the end of the
first group of the leftmost regex match; the result contains exactly one
occurrence of the marker text, everything outside the inserted span is
byte-identical to the original, and the splice position sits immediately
after a newline with only blank lines between it and an export
declaration head.  (The original claim also requires the position to
precede the first export declaration of the file; the counterexample
shows the code does not guarantee that.) -/
theorem claim_C1_insertion (fs : Fs) (path : String) (content : List Char) (p : Nat)
    (hread : fs path = ReadResult.ok content)
    (hmark : containsSub MARKER_SUB content = false)
    (htrig : containsSub TRIGGER content = true)
    (hfind : searchEnd1 content = some p) :
    add_dynamic_export fs path =
      (Outcome.updated, true,
        fun q => if q = path then ReadResult.ok (newContent content p) else fs q) ∧
      content.take p ++ content.drop p = content ∧
      occCount DYNAMIC_EXPORT (newContent content p) = 1 ∧
      content[p - 1]? = some '\n' ∧
      tailCond (content.drop p) = true := by
  refine ⟨?_, ?_, ?_, ?_, ?_⟩
  · rw [add_dynamic_export_ok fs path content hread, hmark, htrig, hfind]
    simp
  · exact List.take_append_drop p content
  · show occCount DYNAMIC_EXPORT (content.take p ++ DYNAMIC_EXPORT ++ content.drop p) = 1
    apply occCount_insert
    rw [List.take_append_drop]
    exact hmark
  · exact (searchEnd1_sound content p hfind).2.1
  · exact (searchEnd1_sound content p hfind).2.2

/-- A qualifying sample file content used by the witness. -/
def SAMPLE_OK : List Char :=
  "import x from y\n\nexport const a = getServerSession\n".data

theorem claim_C1_insertion_witness :
    add_dynamic_export (fun _ => ReadResult.ok SAMPLE_OK) "app/api/settings/route.ts" =
      (Outcome.updated, true,
        fun q => if q = "app/api/settings/route.ts" then ReadResult.ok (newContent SAMPLE_OK 16)
          else (fun _ => ReadResult.ok SAMPLE_OK : Fs) q) ∧
      SAMPLE_OK.take 16 ++ SAMPLE_OK.drop 16 = SAMPLE_OK ∧
      occCount DYNAMIC_EXPORT (newContent SAMPLE_OK 16) = 1 ∧
      SAMPLE_OK[16 - 1]? = some '\n' ∧
      tailCond (SAMPLE_OK.drop 16) = true :=
  claim_C1_insertion _ _ SAMPLE_OK 16 rfl (by decide) (by decide) (by decide)

/-- A file content on which the insertion position falls after the first
export declaration: the word `import` is followed directly by a newline,
so the greedy whitespace step swallows the blank line and the lazy step
runs past the first export declaration to the next newline that is
followed by an export head. -/
def COUNTEREX : List Char :=
  "import\n\nexport const a = getServerSession\nexport const b = 1\n".data

/-- C1 is false as stated: this qualifying file (trigger present, marker
absent, pattern matched) is rewritten with the marker spliced at position
42, yet its first export declaration starts at position 8, which the
splice leaves in place — so the marker's unique occurrence (at 42) is not
before the first export declaration of the rewritten file. -/
theorem claim_C1_counterexample :
    containsSub TRIGGER COUNTEREX = true ∧
    containsSub MARKER_SUB COUNTEREX = false ∧
    searchEnd1 COUNTEREX = some 42 ∧
    (add_dynamic_export (fun _ => ReadResult.ok COUNTEREX) "app/api/settings/route.ts").2.2
        "app/api/settings/route.ts" = ReadResult.ok (newContent COUNTEREX 42) ∧
    occAt "export const ".data (newContent COUNTEREX 42) 8 = true ∧
    occAt DYNAMIC_EXPORT (newContent COUNTEREX 42) 42 = true ∧
    occCount DYNAMIC_EXPORT (newContent COUNTEREX 42) = 1 := by
  refine ⟨by decide, by decide, by decide, ?_, by decide, by decide, by decide⟩
  rw [add_fs_yes _ _ COUNTEREX 42 rfl (by decide) (by decide) (by decide)]
  simp
